import Mathlib

/-!
Verification development for the construction-pareto-analyzer repository.

The Pareto/WBS analysis core is shallowly embedded here:
* JS strings are modelled as `List Char`; JS numbers (costs, quantities,
  rates) as `ℚ` (the analysed values are exact decimals; NaN-producing
  inputs are outside the model and are noted where relevant).
* The per-project database state touched by `processSpreadsheet`
  (`src/backend/analysis/process.ts` and its related revision with WBS
  columns) is modelled as an explicit record threaded through the
  procedure.
* SQL aggregation in `src/backend/analysis/get_wbs_data.ts` (grouping,
  `SPLIT_PART`, dot counting via `LENGTH`/`REPLACE`, `LIKE 'p.%'` with a
  literal parent code) is modelled by executable list functions.
* `Array.prototype.sort` with comparator `(a, b) => b.totalCost - a.totalCost`
  is, per ECMAScript, the stable descending sort by `totalCost`.  A stable
  sort by a total preorder has a unique output, so it is modelled by a
  structural stable insertion sort, for which sortedness, stability and
  permutation lemmas are proved below.
-/

/-! ### String utilities over `List Char` -/

/-- Number of `'.'` characters in a code; models the SQL expression
`LENGTH(item_code) - LENGTH(REPLACE(item_code, '.', ''))`. -/
def dotCount (s : List Char) : Nat :=
  (s.filter (fun c => c = '.')).length

/-- `startsWithCode s p` holds when `s` begins with `p`; models
`item_code LIKE p || '%'` for a literal (wildcard-free) code `p`. -/
def startsWithCode : List Char → List Char → Bool
  | _, [] => true
  | [], _ :: _ => false
  | c :: s, d :: p => c = d && startsWithCode s p

/-- JS `String.prototype.split('.')`: the (always non-empty) list of
dot-separated segments. -/
def splitDot : List Char → List (List Char)
  | [] => [[]]
  | c :: cs =>
    if c = '.' then [] :: splitDot cs
    else
      match splitDot cs with
      | [] => [[c]]
      | s :: rest => (c :: s) :: rest

/-- JS `Array.prototype.join('.')`. -/
def joinDot : List (List Char) → List Char
  | [] => []
  | [s] => s
  | s :: rest => s ++ '.' :: joinDot rest

/-- Models the regex test `item_code ~ '^[0-9]+$'`. -/
def allDigits (s : List Char) : Bool :=
  !s.isEmpty && s.all (fun c => c.isDigit)

/-- Models the regex test `item_code ~ '^[0-9]+\.'` (one or more digits
immediately followed by a dot; backtracking cannot help, so this equals
"the maximal leading digit run is non-empty and is followed by `'.'`"). -/
def digitsThenDot (s : List Char) : Bool :=
  let d := s.takeWhile (fun c => c.isDigit)
  !d.isEmpty && (s.drop d.length).head? = some '.'

/-- Models `SPLIT_PART(item_code, '.', 1)`: the text before the first dot
(the whole string when it has no dot). -/
def firstSegment (s : List Char) : List Char :=
  s.takeWhile (fun c => c ≠ '.')

/-- JS `String.prototype.trim()` restricted to ASCII whitespace. -/
def trimCode (s : List Char) : List Char :=
  ((s.dropWhile Char.isWhitespace).reverse.dropWhile Char.isWhitespace).reverse

/-! ### WbsCodeAnalyzer (`determineWBSLevelFromCode` / `getParentItemCode`)

Source: the `processSpreadsheet` revision carrying WBS columns
(`src/unnamed/part_004`, lines 166–183; textually identical helpers in
`src/unnamed/part_003`, lines 175–192). -/

/-- `determineWBSLevelFromCode`: falsy input defaults to level 1, otherwise
the number of dot-separated segments. -/
def determineWBSLevelFromCode (itemCode : List Char) : Nat :=
  if itemCode = [] then 1
  else (splitDot itemCode).length

/-- `getParentItemCode`: `null` for falsy input or a single-segment code,
otherwise all segments except the last re-joined with `'.'`. -/
def getParentItemCode (itemCode : List Char) : Option (List Char) :=
  if itemCode = [] then none
  else
    let parts := splitDot itemCode
    if parts.length ≤ 1 then none
    else some (joinDot parts.dropLast)

/-! ### RowParser

A raw spreadsheet row is modelled after alias resolution: each field holds
the value produced by the `rowData.X || rowData.y || ... || default` chain
of the source (`''` / `0` when every alias was absent or falsy). -/

structure RawRow where
  /-- Resolved `Item Code`/`itemCode`/`Code`/`code` value, `[]` when absent. -/
  itemCode : List Char
  /-- Resolved `Description`/`description`/`Item`/`item` value. -/
  description : List Char
  /-- `parseFloat` of the resolved quantity aliases (`0` when absent). -/
  quantity : ℚ
  /-- Resolved `Unit`/`unit` value. -/
  unit : List Char
  /-- `parseFloat` of the resolved unit-rate aliases (`0` when absent). -/
  unitRate : ℚ
  /-- `parseFloat` of the resolved total aliases (`0` when absent,
  unparseable, or zero — the falsy cases of the source's `|| (q * r)`). -/
  totalRaw : ℚ
deriving DecidableEq, Repr

/-- `parseFloat(... || '0') || (quantity * unitRate)`: the supplied total
when truthy, otherwise the derived product. -/
def finalTotalCost (row : RawRow) : ℚ :=
  if row.totalRaw = 0 then row.quantity * row.unitRate else row.totalRaw

/-- Accepted line item of `src/backend/analysis/process.ts` (no WBS
columns; `itemCode` may be `null`). -/
structure FlatItem where
  itemCode : Option (List Char)
  description : List Char
  quantity : ℚ
  unit : List Char
  unitRate : ℚ
  totalCost : ℚ
deriving DecidableEq, Repr

/-- Row acceptance of `src/backend/analysis/process.ts` (lines 65–84):
kept when `description && totalCost > 0`; `itemCode` is not checked and is
stored as `null` when falsy. -/
def parseRowFlat (row : RawRow) : Option FlatItem :=
  let totalCost := finalTotalCost row
  if row.description ≠ [] ∧ 0 < totalCost then
    some { itemCode := if row.itemCode = [] then none else some row.itemCode
           description := row.description
           quantity := row.quantity
           unit := row.unit
           unitRate := row.unitRate
           totalCost := totalCost }
  else none

/-- Accepted line item of the WBS-aware `processSpreadsheet` revision
(`src/unnamed/part_004`). -/
structure PItem where
  itemCode : List Char
  description : List Char
  quantity : ℚ
  unit : List Char
  unitRate : ℚ
  totalCost : ℚ
  wbsLevel : Nat
  parentItemCode : Option (List Char)
deriving DecidableEq, Repr

/-- Row acceptance of `src/unnamed/part_004` (lines 68–96): the item code
is trimmed and required to be non-empty, the description non-empty and the
final total strictly positive; WBS level and parent are derived from the
trimmed code. -/
def parseRow004 (row : RawRow) : Option PItem :=
  let itemCode := trimCode row.itemCode
  let totalCost := finalTotalCost row
  if itemCode ≠ [] ∧ row.description ≠ [] ∧ 0 < totalCost then
    some { itemCode := itemCode
           description := row.description
           quantity := row.quantity
           unit := row.unit
           unitRate := row.unitRate
           totalCost := totalCost
           wbsLevel := determineWBSLevelFromCode itemCode
           parentItemCode := getParentItemCode itemCode }
  else none

/-! ### Stable descending sort by cost

`items.sort((a, b) => b.totalCost - a.totalCost)` is, per the ECMAScript
specification, a stable sort that places `a` before `b` whenever the
comparator is non-positive, i.e. whenever `b.totalCost ≤ a.totalCost`.
A stable sort by a total preorder has a unique output, so it is embedded
as a structural stable insertion sort over an arbitrary cost projection
(reused for the SQL `ORDER BY total_cost DESC` clauses, whose tie order
SQL leaves open and which this model also fixes to the stable one). -/

/-- Insert `x` into `l` directly before the first element whose cost does
not exceed `x`'s (so `x` lands after earlier equal-cost elements). -/
def insertByCost {α : Type} (cost : α → ℚ) (x : α) : List α → List α
  | [] => [x]
  | y :: ys =>
    if cost y ≤ cost x then x :: y :: ys
    else y :: insertByCost cost x ys

/-- Stable sort, descending by `cost`. -/
def sortByCostDesc {α : Type} (cost : α → ℚ) : List α → List α
  | [] => []
  | x :: xs => insertByCost cost x (sortByCostDesc cost xs)

theorem mem_insertByCost {α : Type} (cost : α → ℚ) (x : α) (l : List α) (z : α) :
    z ∈ insertByCost cost x l ↔ z = x ∨ z ∈ l := by
  induction l with
  | nil => simp [insertByCost]
  | cons y ys ih =>
    by_cases h : cost y ≤ cost x
    · simp [insertByCost, h]
    · simp only [insertByCost, if_neg h, List.mem_cons, ih]
      tauto

theorem insertByCost_perm {α : Type} (cost : α → ℚ) (x : α) (l : List α) :
    List.Perm (insertByCost cost x l) (x :: l) := by
  induction l with
  | nil => simp [insertByCost]
  | cons y ys ih =>
    by_cases h : cost y ≤ cost x
    · simp [insertByCost, h]
    · rw [insertByCost, if_neg h]
      exact (ih.cons y).trans (List.Perm.swap x y ys)

theorem sortByCostDesc_perm {α : Type} (cost : α → ℚ) (l : List α) :
    List.Perm (sortByCostDesc cost l) l := by
  induction l with
  | nil => simp [sortByCostDesc]
  | cons x xs ih =>
    exact (insertByCost_perm cost x _).trans (ih.cons x)

theorem insertByCost_pairwise {α : Type} (cost : α → ℚ) (x : α) (l : List α)
    (h : l.Pairwise (fun a b => cost b ≤ cost a)) :
    (insertByCost cost x l).Pairwise (fun a b => cost b ≤ cost a) := by
  induction l with
  | nil => simp [insertByCost]
  | cons y ys ih =>
    rcases List.pairwise_cons.mp h with ⟨hy, hys⟩
    by_cases hc : cost y ≤ cost x
    · rw [insertByCost, if_pos hc]
      refine List.pairwise_cons.mpr ⟨?_, h⟩
      intro z hz
      rcases List.mem_cons.mp hz with rfl | hz
      · exact hc
      · exact le_trans (hy z hz) hc
    · rw [insertByCost, if_neg hc]
      refine List.pairwise_cons.mpr ⟨?_, ih hys⟩
      intro z hz
      rcases (mem_insertByCost cost x ys z).mp hz with rfl | hz
      · exact le_of_lt (lt_of_not_le hc)
      · exact hy z hz

/-- The sort output is descending in cost. -/
theorem sortByCostDesc_sorted {α : Type} (cost : α → ℚ) (l : List α) :
    (sortByCostDesc cost l).Pairwise (fun a b => cost b ≤ cost a) := by
  induction l with
  | nil => simp [sortByCostDesc]
  | cons x xs ih => exact insertByCost_pairwise cost x _ ih

theorem filter_insertByCost_eq {α : Type} (cost : α → ℚ) (c : ℚ) (x : α) (l : List α) :
    (insertByCost cost x l).filter (fun z => cost z = c) =
      if cost x = c then x :: l.filter (fun z => cost z = c)
      else l.filter (fun z => cost z = c) := by
  induction l with
  | nil =>
    by_cases h : cost x = c <;> simp [insertByCost, List.filter, h]
  | cons y ys ih =>
    by_cases hc : cost y ≤ cost x
    · rw [insertByCost, if_pos hc]
      by_cases h : cost x = c <;> simp [List.filter_cons, h]
    · rw [insertByCost, if_neg hc]
      have hyx : cost x < cost y := lt_of_not_le hc
      by_cases hy : cost y = c
      · have hx : ¬ cost x = c := by
          intro hx
          exact absurd (hx.trans hy.symm) (ne_of_lt hyx)
        simp [List.filter_cons, hy, hx, ih]
      · by_cases hx : cost x = c <;>
          simp [List.filter_cons, hy, hx, ih]

/-- Stability: the equal-cost items of the output, read left to right, are
exactly the equal-cost items of the input in input order. -/
theorem sortByCostDesc_filter_eq {α : Type} (cost : α → ℚ) (c : ℚ) (l : List α) :
    (sortByCostDesc cost l).filter (fun z => cost z = c) =
      l.filter (fun z => cost z = c) := by
  induction l with
  | nil => simp [sortByCostDesc]
  | cons x xs ih =>
    by_cases h : cost x = c <;>
      simp [sortByCostDesc, filter_insertByCost_eq, h, List.filter_cons, ih]

/-! ### ParetoRanker (the cumulative sweep of `processSpreadsheet`) -/

/-- A line item persisted with its computed Pareto fields (one inserted
`boq_items` row of the request's project). -/
structure RankedItem extends PItem where
  cumulativeCost : ℚ
  cumulativePercentage : ℚ
  isParetoCritical : Bool
deriving DecidableEq, Repr

/-- The cumulative loop of `processSpreadsheet`: running cost, percentage
of `total`, and the `cumulativePercentage <= 80` criticality flag. -/
def rankSweep (total : ℚ) (cum : ℚ) : List PItem → List RankedItem
  | [] => []
  | x :: xs =>
    let c := cum + x.totalCost
    let pct := c / total * 100
    { toPItem := x
      cumulativeCost := c
      cumulativePercentage := pct
      isParetoCritical := decide (pct ≤ 80) } :: rankSweep total c xs

/-- Sort descending by cost, total the costs, then sweep: the ranking step
shared by both `processSpreadsheet` revisions (lines 90–122 of
`src/backend/analysis/process.ts`, lines 102–136 of `src/unnamed/part_004`). -/
def rankItems (items : List PItem) : List RankedItem :=
  let sorted := sortByCostDesc (fun x => x.totalCost) items
  let total := (sorted.map (fun x => x.totalCost)).sum
  rankSweep total 0 sorted

/-! ### AnalysisProcessor (`processSpreadsheet`) as a state machine

The modelled state is the slice of the database owned by the request's
project: whether the project row exists, its `status`, and its persisted
`boq_items` rows.  The file download and sheet decoding are external; the
decoded rows are the model's input.  The structure below follows
`src/unnamed/part_004` (the revision persisting WBS columns); the
control flow (lookup → empty-rows check → DELETE → parse → empty-items
check → sort → sweep/INSERT → status UPDATE → re-SELECT) is identical in
`src/backend/analysis/process.ts`. -/

structure ProjState where
  present : Bool
  status : List Char
  stored : List RankedItem
deriving DecidableEq, Repr

structure ProcessResponse where
  totalItems : Nat
  totalProjectCost : ℚ
  paretoCriticalItems : Nat
  items : List RankedItem
deriving DecidableEq, Repr

inductive ProcResult where
  | ok (resp : ProcessResponse)
  | notFound
  | invalidArg
deriving DecidableEq, Repr

/-- The source's `items` array after the parsing loop. -/
def procAccepted (rows : List RawRow) : List PItem :=
  rows.filterMap parseRow004

/-- The source's `items` after `items.sort((a, b) => b.totalCost - a.totalCost)`. -/
def procSorted (rows : List RawRow) : List PItem :=
  sortByCostDesc (fun x => x.totalCost) (procAccepted rows)

/-- The source's `totalProjectCost = items.reduce((sum, item) => sum + item.totalCost, 0)`. -/
def procTotal (rows : List RawRow) : ℚ :=
  ((procSorted rows).map (fun x => x.totalCost)).sum

/-- The rows inserted by the cumulative loop. -/
def procRanked (rows : List RawRow) : List RankedItem :=
  rankSweep (procTotal rows) 0 (procSorted rows)

/-- The successful response: the loop's critical counter equals the number
of inserted rows whose flag is set, and the final re-SELECT
(`ORDER BY total_cost DESC`) is modelled with the same stable sort. -/
def procResponse (rows : List RawRow) : ProcessResponse :=
  { totalItems := (procAccepted rows).length
    totalProjectCost := procTotal rows
    paretoCriticalItems :=
      ((procRanked rows).filter (fun r => r.isParetoCritical)).length
    items := sortByCostDesc (fun r => r.totalCost) (procRanked rows) }

/-- `processSpreadsheet` (`src/unnamed/part_004`, lines 40–163): returns
the state after the call together with its outcome.  The `DELETE` of the
project's previous rows happens before the parsing loop, so the
"no valid BoQ items" failure leaves `stored` already cleared. -/
def processSpreadsheet (st : ProjState) (rows : List RawRow) :
    ProjState × ProcResult :=
  if st.present = false then (st, .notFound)
  else if rows = [] then (st, .invalidArg)
  else if procAccepted rows = [] then ({ st with stored := [] }, .invalidArg)
  else
    ({ st with stored := procRanked rows, status := "processed".data },
     .ok (procResponse rows))

/-- Projects the successful response out of a `processSpreadsheet` outcome. -/
def respOf (p : ProjState × ProcResult) : Option ProcessResponse :=
  match p.2 with
  | .ok r => some r
  | _ => none

/-! ### WbsAggregator (`getWBSData`, `src/backend/analysis/get_wbs_data.ts`)

The persisted `boq_items` rows of the request's project are the input list.
The SQL `STRING_AGG` columns (`description`, `unit`) and `AVG(unit_rate)`
are not consulted by any verified property and are not modelled; the
grouped columns that are (`MIN(id)`, the grouping key, `SUM(total_cost)`,
`COUNT(*)`, `SUM(quantity)`) are. -/

/-- A persisted `boq_items` row as read by `getWBSData`. -/
structure StoredItem where
  id : Nat
  itemCode : List Char
  totalCost : ℚ
  quantity : ℚ
  wbsLevel : Nat
deriving DecidableEq, Repr

/-- One aggregated row (`WITH levelN_items AS (SELECT ... GROUP BY ...)`). -/
structure AggRow where
  id : Nat
  itemCode : List Char
  totalCost : ℚ
  itemCount : Nat
  quantity : ℚ
deriving DecidableEq, Repr

/-- Grouping keys in first-occurrence order (SQL leaves the group order
open; the rows are ordered by cost afterwards anyway). -/
def firstKeysAux (seen : List (List Char)) : List (List Char) → List (List Char)
  | [] => []
  | k :: ks =>
    if k ∈ seen then firstKeysAux seen ks
    else k :: firstKeysAux (k :: seen) ks

def firstKeys (l : List (List Char)) : List (List Char) :=
  firstKeysAux [] l

/-- `MIN(id)` over a group. -/
def minId : List StoredItem → Nat
  | [] => 0
  | x :: xs => xs.foldl (fun m r => min m r.id) x.id

/-- `GROUP BY key` with the aggregates `MIN(id)`, `SUM(total_cost)`,
`COUNT(*)`, `SUM(quantity)`. -/
def sqlGroupBy (key : StoredItem → List Char) (sel : List StoredItem) :
    List AggRow :=
  (firstKeys (sel.map key)).map (fun k =>
    let ms := sel.filter (fun r => key r = k)
    { id := minId ms
      itemCode := k
      totalCost := (ms.map (fun r => r.totalCost)).sum
      itemCount := ms.length
      quantity := (ms.map (fun r => r.quantity)).sum })

/-- The level-1 `CASE` grouping key (lines 55–59): a purely numeric code
groups as itself, a code starting `digits.` groups by its first segment,
anything else groups as itself. -/
def level1Key (code : List Char) : List Char :=
  if allDigits code then code
  else if digitsThenDot code then firstSegment code
  else code

/-- The level-1 query (lines 51–88): rows with a non-null, non-empty
`item_code`, grouped by `level1Key`, outer-filtered to non-empty keys,
ordered by summed cost descending. -/
def level1Rows (rows : List StoredItem) : List AggRow :=
  sortByCostDesc (fun a => a.totalCost)
    (((sqlGroupBy (fun r => level1Key r.itemCode)
        (rows.filter (fun r => r.itemCode ≠ []))).filter
      (fun a => a.itemCode ≠ [])))

/-- The `WHERE` clause of the level-2 query (lines 106–110) and of the
level-3+ query (lines 143–147): a `LIKE parent.%` test, an exact dot
count (1 for level 2, 2 for every other level reaching the `else`
branch), and `item_code != parent`. -/
def wbsSelPred (level : Nat) (parent : List Char) (r : StoredItem) : Bool :=
  if level = 2 then
    startsWithCode r.itemCode (parent ++ ['.']) && dotCount r.itemCode = 1 &&
      r.itemCode ≠ parent
  else
    startsWithCode r.itemCode (parent ++ ['.']) && dotCount r.itemCode = 2 &&
      r.itemCode ≠ parent

/-- The level-2 / level-3+ queries: select by `wbsSelPred`, group by the
full `item_code`, outer-filter to non-empty keys, order by cost. -/
def levelNRows (level : Nat) (parent : List Char) (rows : List StoredItem) :
    List AggRow :=
  sortByCostDesc (fun a => a.totalCost)
    ((sqlGroupBy (fun r => r.itemCode)
        (rows.filter (wbsSelPred level parent))).filter
      (fun a => a.itemCode ≠ []))

/-- Aggregated row with the Pareto fields of the response. -/
structure WbsItem where
  id : Nat
  itemCode : List Char
  totalCost : ℚ
  cumulativeCost : ℚ
  cumulativePercentage : ℚ
  isParetoCritical : Bool
  itemCount : Nat
  quantity : ℚ
deriving DecidableEq, Repr

/-- The `.map` over `aggregatedItems` (lines 182–200) with its closed-over
mutable `cumulativeCost`, written as an explicit sweep. -/
def wbsSweep (total : ℚ) (cum : ℚ) : List AggRow → List WbsItem
  | [] => []
  | a :: rest =>
    let c := cum + a.totalCost
    let pct := c / total * 100
    { id := a.id
      itemCode := a.itemCode
      totalCost := a.totalCost
      cumulativeCost := c
      cumulativePercentage := pct
      isParetoCritical := decide (pct ≤ 80)
      itemCount := a.itemCount
      quantity := a.quantity } :: wbsSweep total c rest

structure WBSResponse where
  level : Nat
  parentItemCode : List Char
  totalCost : ℚ
  items : List WbsItem
deriving DecidableEq, Repr

inductive WbsResult where
  | ok (resp : WBSResponse)
  | notFound
  | invalidArg
deriving DecidableEq, Repr

/-- The post-query JS filter (line 166):
`aggregatedItems.filter(item => item.itemCode && item.totalCost > 0)`. -/
def wbsFiltered (aggregated : List AggRow) : List AggRow :=
  aggregated.filter (fun a => a.itemCode ≠ [] && 0 < a.totalCost)

/-- Lines 166–208: empty filtered list short-circuits to a zero response;
otherwise `totalCost` is the filtered subset's own sum and the rows get
the cumulative sweep against it. -/
def wbsFinish (level : Nat) (parent : List Char) (aggregated : List AggRow) :
    WbsResult :=
  if wbsFiltered aggregated = [] then
    .ok { level := level, parentItemCode := parent, totalCost := 0, items := [] }
  else
    .ok { level := level
          parentItemCode := parent
          totalCost := ((wbsFiltered aggregated).map (fun a => a.totalCost)).sum
          items := wbsSweep
            (((wbsFiltered aggregated).map (fun a => a.totalCost)).sum) 0
            (wbsFiltered aggregated) }

/-- `getWBSData` (`src/backend/analysis/get_wbs_data.ts`, lines 35–210).
`parent = []` models an absent or empty `parentItemCode` (both falsy in
the source's `!req.parentItemCode` test). -/
def getWBSData (present : Bool) (rows : List StoredItem) (level : Nat)
    (parent : List Char) : WbsResult :=
  if present = false then .notFound
  else if level = 1 then wbsFinish level parent (level1Rows rows)
  else if parent = [] then .invalidArg
  else wbsFinish level parent (levelNRows level parent rows)

/-! ### Properties of `splitDot` / `joinDot` -/

theorem splitDot_ne_nil (s : List Char) : splitDot s ≠ [] := by
  induction s with
  | nil => simp [splitDot]
  | cons c cs ih =>
    by_cases h : c = '.'
    · simp [splitDot, h]
    · rw [splitDot, if_neg h]
      cases hs : splitDot cs <;> simp

theorem not_dot_mem_splitDot (s : List Char) :
    ∀ p ∈ splitDot s, '.' ∉ p := by
  induction s with
  | nil =>
    intro p hp
    simp [splitDot] at hp
    simp [hp]
  | cons c cs ih =>
    intro p hp
    by_cases h : c = '.'
    · rw [splitDot, if_pos h] at hp
      rcases List.mem_cons.mp hp with rfl | hp
      · simp
      · exact ih p hp
    · rw [splitDot, if_neg h] at hp
      cases hs : splitDot cs with
      | nil => exact absurd hs (splitDot_ne_nil cs)
      | cons q rest =>
        rw [hs] at hp
        rcases List.mem_cons.mp hp with rfl | hp
        · intro hmem
          rcases List.mem_cons.mp hmem with hd | hd
          · exact h hd.symm
          · exact ih q (hs ▸ List.mem_cons_self q rest) hd
        · exact ih p (hs ▸ List.mem_cons_of_mem q hp)

theorem splitDot_of_no_dot (p : List Char) (h : '.' ∉ p) :
    splitDot p = [p] := by
  induction p with
  | nil => rfl
  | cons c cs ih =>
    have hc : ¬ c = '.' := fun hc => h (hc ▸ List.mem_cons_self c cs)
    have hcs : '.' ∉ cs := fun hm => h (List.mem_cons_of_mem c hm)
    rw [splitDot, if_neg hc, ih hcs]

theorem splitDot_append_dot (p t : List Char) (h : '.' ∉ p) :
    splitDot (p ++ '.' :: t) = p :: splitDot t := by
  induction p with
  | nil => simp [splitDot]
  | cons c cs ih =>
    have hc : ¬ c = '.' := fun hc => h (hc ▸ List.mem_cons_self c cs)
    have hcs : '.' ∉ cs := fun hm => h (List.mem_cons_of_mem c hm)
    rw [List.cons_append, splitDot, if_neg hc, ih hcs]

theorem splitDot_joinDot (l : List (List Char)) (hne : l ≠ [])
    (hnd : ∀ p ∈ l, '.' ∉ p) : splitDot (joinDot l) = l := by
  induction l with
  | nil => exact absurd rfl hne
  | cons p rest ih =>
    cases rest with
    | nil =>
      rw [joinDot]
      exact splitDot_of_no_dot p (hnd p (List.mem_cons_self p []))
    | cons q rest' =>
      have hj : joinDot (p :: q :: rest') = p ++ '.' :: joinDot (q :: rest') := rfl
      rw [hj, splitDot_append_dot p _ (hnd p (List.mem_cons_self p _))]
      rw [ih (by simp) (fun r hr => hnd r (List.mem_cons_of_mem p hr))]

/-! ### Claim theorems -/

/-- C7: for every non-empty dotted code, `determineWBSLevelFromCode` counts
the dot-separated segments; `getParentItemCode` is `none` exactly on
single-segment codes and otherwise joins all segments except the last with
a dot; consequently the level is 1 when there is no parent and the
parent's level plus one otherwise. -/
theorem c7_wbs_hierarchy (code : List Char) (h : code ≠ []) :
    determineWBSLevelFromCode code = (splitDot code).length ∧
    (getParentItemCode code = none ↔ (splitDot code).length = 1) ∧
    (getParentItemCode code = none → determineWBSLevelFromCode code = 1) ∧
    (∀ p, getParentItemCode code = some p →
      p = joinDot (splitDot code).dropLast ∧
      determineWBSLevelFromCode code = determineWBSLevelFromCode p + 1) := by
  have hne := splitDot_ne_nil code
  have hpos : 0 < (splitDot code).length := List.length_pos.mpr hne
  have hlevel : determineWBSLevelFromCode code = (splitDot code).length := by
    rw [determineWBSLevelFromCode, if_neg h]
  have hparent : getParentItemCode code =
      (if (splitDot code).length ≤ 1 then none
       else some (joinDot (splitDot code).dropLast)) := by
    rw [getParentItemCode, if_neg h]
  by_cases hle : (splitDot code).length ≤ 1
  · have h1 : (splitDot code).length = 1 := le_antisymm hle hpos
    refine ⟨hlevel, ?_, ?_, ?_⟩
    · rw [hparent, if_pos hle]
      simp [h1]
    · intro _
      rw [hlevel, h1]
    · intro p hp
      rw [hparent, if_pos hle] at hp
      cases hp
  · refine ⟨hlevel, ?_, ?_, ?_⟩
    · rw [hparent, if_neg hle]
      simp only [false_iff, reduceCtorEq]
      omega
    · intro hnone
      rw [hparent, if_neg hle] at hnone
      cases hnone
    · intro p hp
      rw [hparent, if_neg hle] at hp
      have hpj : p = joinDot (splitDot code).dropLast := (Option.some.inj hp).symm
      refine ⟨hpj, ?_⟩
      have hlendl : (splitDot code).dropLast.length = (splitDot code).length - 1 :=
        List.length_dropLast _
      have hdne : (splitDot code).dropLast ≠ [] := by
        intro hz
        rw [hz] at hlendl
        simp at hlendl
        omega
      have hdnd : ∀ q ∈ (splitDot code).dropLast, '.' ∉ q := by
        intro q hq
        exact not_dot_mem_splitDot code q (List.dropLast_subset _ hq)
      have hsplit : splitDot p = (splitDot code).dropLast := by
        rw [hpj]
        exact splitDot_joinDot _ hdne hdnd
      by_cases hpnil : p = []
      · have hsp : splitDot p = [[]] := by rw [hpnil]; rfl
        rw [hsp] at hsplit
        have hl1 : (splitDot code).dropLast.length = 1 := by
          rw [← hsplit]
          rfl
        have hl2 : (splitDot code).length = 2 := by omega
        rw [hlevel, hl2, determineWBSLevelFromCode, if_pos hpnil]
      · rw [hlevel, determineWBSLevelFromCode, if_neg hpnil, hsplit, hlendl]
        omega

/-- C7 witness: the claim's examples, derived by applying
`c7_wbs_hierarchy` at the concrete code `"1.2.3"`. -/
theorem c7_wbs_hierarchy_witness :
    getParentItemCode ['1', '.', '2', '.', '3'] = some ['1', '.', '2'] ∧
    determineWBSLevelFromCode ['1', '.', '2', '.', '3'] =
      determineWBSLevelFromCode ['1', '.', '2'] + 1 ∧
    determineWBSLevelFromCode ['1', '.', '2', '.', '3'] = 3 ∧
    getParentItemCode ['7'] = none ∧ determineWBSLevelFromCode ['7'] = 1 :=
  ⟨by decide,
   ((c7_wbs_hierarchy ['1', '.', '2', '.', '3'] (by decide)).2.2.2
      ['1', '.', '2'] (by decide)).2,
   by decide, by decide, by decide⟩

/-! ### General lemmas about the embedded operations -/

theorem rankSweep_map_toPItem (total : ℚ) :
    ∀ (cum : ℚ) (l : List PItem),
      (rankSweep total cum l).map (fun r => r.toPItem) = l := by
  intro cum l
  induction l generalizing cum with
  | nil => rfl
  | cons x xs ih => simp [rankSweep, ih]

theorem mem_rankSweep_toPItem (total cum : ℚ) (l : List PItem) (r : RankedItem)
    (hr : r ∈ rankSweep total cum l) : r.toPItem ∈ l := by
  rw [← rankSweep_map_toPItem total cum l]
  exact List.mem_map_of_mem _ hr

theorem parseRow004_pos (row : RawRow) (x : PItem)
    (h : parseRow004 row = some x) : 0 < x.totalCost := by
  rw [parseRow004] at h
  by_cases hc : trimCode row.itemCode ≠ [] ∧ row.description ≠ [] ∧
      0 < finalTotalCost row
  · rw [if_pos hc] at h
    cases h
    exact hc.2.2
  · rw [if_neg hc] at h
    cases h

theorem parseRowFlat_pos (row : RawRow) (x : FlatItem)
    (h : parseRowFlat row = some x) : 0 < x.totalCost := by
  rw [parseRowFlat] at h
  by_cases hc : row.description ≠ [] ∧ 0 < finalTotalCost row
  · rw [if_pos hc] at h
    cases h
    exact hc.2
  · rw [if_neg hc] at h
    cases h

theorem procAccepted_pos (rows : List RawRow) (x : PItem)
    (hx : x ∈ procAccepted rows) : 0 < x.totalCost := by
  rcases List.mem_filterMap.mp hx with ⟨row, -, hrow⟩
  exact parseRow004_pos row x hrow

theorem procTotal_eq_sum (rows : List RawRow) :
    procTotal rows = ((procAccepted rows).map (fun x => x.totalCost)).sum :=
  List.Perm.sum_eq
    ((sortByCostDesc_perm (fun x : PItem => x.totalCost)
        (procAccepted rows)).map (fun x : PItem => x.totalCost))

theorem sum_map_pos {α : Type} (f : α → ℚ) (l : List α) (hne : l ≠ [])
    (hpos : ∀ x ∈ l, 0 < f x) : 0 < (l.map f).sum := by
  cases l with
  | nil => exact absurd rfl hne
  | cons x xs =>
    have hx : 0 < f x := hpos x (List.mem_cons_self x xs)
    have hxs : 0 ≤ (xs.map f).sum := by
      apply List.sum_nonneg
      intro q hq
      rcases List.mem_map.mp hq with ⟨y, hy, rfl⟩
      exact le_of_lt (hpos y (List.mem_cons_of_mem x hy))
    simpa [List.map_cons, List.sum_cons] using add_pos_of_pos_of_nonneg hx hxs

theorem procTotal_pos (rows : List RawRow) (hne : procAccepted rows ≠ []) :
    0 < procTotal rows := by
  rw [procTotal_eq_sum]
  exact sum_map_pos _ _ hne (procAccepted_pos rows)

/-- Success characterization of `processSpreadsheet`. -/
theorem respOf_processSpreadsheet (st : ProjState) (rows : List RawRow)
    (resp : ProcessResponse)
    (h : respOf (processSpreadsheet st rows) = some resp) :
    resp = procResponse rows ∧ procAccepted rows ≠ [] := by
  rw [processSpreadsheet] at h
  by_cases h1 : st.present = false
  · rw [if_pos h1] at h
    exact absurd h (by simp [respOf])
  · rw [if_neg h1] at h
    by_cases h2 : rows = []
    · rw [if_pos h2] at h
      exact absurd h (by simp [respOf])
    · rw [if_neg h2] at h
      by_cases h3 : procAccepted rows = []
      · rw [if_pos h3] at h
        exact absurd h (by simp [respOf])
      · rw [if_neg h3] at h
        rw [respOf] at h
        exact ⟨(Option.some.inj h).symm, h3⟩

theorem wbsSweep_map_totalCost (total : ℚ) :
    ∀ (cum : ℚ) (l : List AggRow),
      (wbsSweep total cum l).map (fun w => w.totalCost) =
        l.map (fun a => a.totalCost) := by
  intro cum l
  induction l generalizing cum with
  | nil => rfl
  | cons a rest ih => simp [wbsSweep, ih]

theorem wbsSweep_length (total : ℚ) (cum : ℚ) (l : List AggRow) :
    (wbsSweep total cum l).length = l.length := by
  have := congrArg List.length (wbsSweep_map_totalCost total cum l)
  simpa using this

theorem wbsSweep_getElem_pct (total : ℚ) :
    ∀ (l : List AggRow) (cum : ℚ) (i : Nat),
      ((wbsSweep total cum l)[i]?.map (fun w => w.cumulativePercentage)) =
        (l[i]?.map (fun _ =>
          (cum + ((l.take (i + 1)).map (fun a => a.totalCost)).sum) / total * 100)) := by
  intro l
  induction l with
  | nil => intro cum i; rfl
  | cons a rest ih =>
    intro cum i
    cases i with
    | zero => simp [wbsSweep]
    | succ j =>
      have h := ih (cum + a.totalCost) j
      simp only [wbsSweep, List.getElem?_cons_succ, List.take_succ_cons,
        List.map_cons, List.sum_cons] at h ⊢
      rw [h]
      congr 1
      funext _
      ring_nf

/-- Success characterization of `getWBSData` with a non-empty row list. -/
theorem getWBSData_ok_nonempty (present : Bool) (rows : List StoredItem)
    (level : Nat) (parent : List Char) (resp : WBSResponse)
    (hok : getWBSData present rows level parent = .ok resp)
    (hne : resp.items ≠ []) :
    ∃ filtered : List AggRow, filtered ≠ [] ∧
      resp.totalCost = (filtered.map (fun a => a.totalCost)).sum ∧
      resp.items = wbsSweep resp.totalCost 0 filtered ∧
      ∀ a ∈ filtered, 0 < a.totalCost := by
  have main : ∀ aggregated : List AggRow,
      wbsFinish level parent aggregated = .ok resp →
      ∃ filtered : List AggRow, filtered ≠ [] ∧
        resp.totalCost = (filtered.map (fun a => a.totalCost)).sum ∧
        resp.items = wbsSweep resp.totalCost 0 filtered ∧
        ∀ a ∈ filtered, 0 < a.totalCost := by
    intro aggregated hfin
    rw [wbsFinish] at hfin
    by_cases hf : wbsFiltered aggregated = []
    · rw [if_pos hf] at hfin
      have : resp.items = [] := by
        cases hfin
        rfl
      exact absurd this hne
    · rw [if_neg hf] at hfin
      refine ⟨wbsFiltered aggregated, hf, ?_, ?_, ?_⟩
      · cases hfin
        rfl
      · cases hfin
        rfl
      · intro a ha
        have := List.of_mem_filter ha
        simp only [Bool.and_eq_true, decide_eq_true_eq] at this
        exact this.2
  rw [getWBSData] at hok
  by_cases hp : present = false
  · rw [if_pos hp] at hok
    cases hok
  · rw [if_neg hp] at hok
    by_cases hl : level = 1
    · rw [if_pos hl] at hok
      exact main _ hok
    · rw [if_neg hl] at hok
      by_cases hq : parent = []
      · rw [if_pos hq] at hok
        cases hok
      · rw [if_neg hq] at hok
        exact main _ hok

theorem pct_not_le_80 (total c : ℚ) (hT : 0 < total)
    (h : 80 * total < 100 * c) : ¬ (c / total * 100 ≤ 80) := by
  intro hle
  rw [div_mul_eq_mul_div, div_le_iff₀ hT] at hle
  linarith

theorem rankSweep_not_critical (total : ℚ) (hT : 0 < total) :
    ∀ (l : List PItem) (cum : ℚ), (∀ x ∈ l, 0 < x.totalCost) →
      80 * total < 100 * cum →
      ∀ r ∈ rankSweep total cum l, r.isParetoCritical = false := by
  intro l
  induction l with
  | nil =>
    intro cum _ _ r hr
    cases hr
  | cons x xs ih =>
    intro cum hpos hcum r hr
    have hx : 0 < x.totalCost := hpos x (List.mem_cons_self x xs)
    have hcum' : 80 * total < 100 * (cum + x.totalCost) := by linarith
    rcases List.mem_cons.mp hr with rfl | hr
    · simp only [decide_eq_false_iff_not]
      exact pct_not_le_80 total (cum + x.totalCost) hT hcum'
    · exact ih (cum + x.totalCost)
        (fun y hy => hpos y (List.mem_cons_of_mem x hy)) hcum' r hr

/-! ### Concrete inputs used by counterexamples and witnesses -/

/-- An existing project in state `uploaded` with no stored rows. -/
def exState : ProjState :=
  { present := true, status := "uploaded".data, stored := [] }

/-- A previously processed project holding one stored row. -/
def exOldItem : RankedItem :=
  { itemCode := ['9'], description := ['z'], quantity := 1, unit := [],
    unitRate := 1, totalCost := 1, wbsLevel := 1, parentItemCode := none,
    cumulativeCost := 1, cumulativePercentage := 100, isParetoCritical := false }

def exStateOld : ProjState :=
  { present := true, status := "processed".data, stored := [exOldItem] }

/-- A row the parser rejects (empty description). -/
def exBadRow : RawRow :=
  { itemCode := ['9'], description := [], quantity := 1, unit := [],
    unitRate := 1, totalRaw := 0 }

/-- Level-1 row `"1"`, cost 300. -/
def exRow1 : RawRow :=
  { itemCode := ['1'], description := ['a'], quantity := 0, unit := [],
    unitRate := 0, totalRaw := 300 }

/-- Level-2 row `"1.1"`, cost 100. -/
def exRow11 : RawRow :=
  { itemCode := ['1', '.', '1'], description := ['b'], quantity := 0,
    unit := [], unitRate := 0, totalRaw := 100 }

/-- Single dominant row `"1"`, cost 5. -/
def exRow5 : RawRow :=
  { itemCode := ['1'], description := ['a'], quantity := 0, unit := [],
    unitRate := 0, totalRaw := 5 }

/-- The accepted item parsed from `exRow5`. -/
def exP5 : PItem :=
  { itemCode := ['1'], description := ['a'], quantity := 0, unit := [],
    unitRate := 0, totalCost := 5, wbsLevel := 1, parentItemCode := none }

/-- A row whose resolved item code is empty but which
`src/backend/analysis/process.ts` accepts. -/
def exNoCodeRow : RawRow :=
  { itemCode := [], description := ['x'], quantity := 1, unit := [],
    unitRate := 0, totalRaw := 5 }

/-- An accepted item with negative cost, fed directly to the ranking step. -/
def exNegItem : PItem :=
  { itemCode := ['1'], description := ['n'], quantity := 1, unit := [],
    unitRate := 0, totalCost := -5, wbsLevel := 1, parentItemCode := none }

/-- Stored item `"1.1.1"` (level 3, two dots). -/
def exStored111 : StoredItem :=
  { id := 1, itemCode := ['1', '.', '1', '.', '1'], totalCost := 10,
    quantity := 1, wbsLevel := 3 }

/-- Stored item `"1.1.1.1"` (level 4, three dots). -/
def exStored1111 : StoredItem :=
  { id := 2, itemCode := ['1', '.', '1', '.', '1', '.', '1'], totalCost := 7,
    quantity := 1, wbsLevel := 4 }

/-- Stored level-1 item `"1"`, cost 100, quantity 2. -/
def exLvl1 : StoredItem :=
  { id := 1, itemCode := ['1'], totalCost := 100, quantity := 2, wbsLevel := 1 }

/-- Stored level-2 item `"1.2"`, cost 50, quantity 3. -/
def exLvl2 : StoredItem :=
  { id := 2, itemCode := ['1', '.', '2'], totalCost := 50, quantity := 3,
    wbsLevel := 2 }

/-- The single aggregated level-1 group over `[exLvl1, exLvl2]`. -/
def exAgg6 : AggRow :=
  { id := 1, itemCode := ['1'], totalCost := 150, itemCount := 2, quantity := 5 }

/-- Direct children of `"1"`: costs 300 and 100; plus a huge foreign branch. -/
def exChild1 : StoredItem :=
  { id := 1, itemCode := ['1', '.', '1'], totalCost := 300, quantity := 1,
    wbsLevel := 2 }

def exChild2 : StoredItem :=
  { id := 2, itemCode := ['1', '.', '2'], totalCost := 100, quantity := 1,
    wbsLevel := 2 }

def exOther : StoredItem :=
  { id := 3, itemCode := ['2', '.', '1'], totalCost := 1000000, quantity := 1,
    wbsLevel := 2 }

def exWbsRows : List StoredItem := [exChild1, exChild2, exOther]

/-- The response of `getWBSData` on `exWbsRows` at level 2 under `"1"`. -/
def exWbsResp : WBSResponse :=
  { level := 2
    parentItemCode := ['1']
    totalCost := 400
    items :=
      [ { id := 1, itemCode := ['1', '.', '1'], totalCost := 300,
          cumulativeCost := 300, cumulativePercentage := 75,
          isParetoCritical := true, itemCount := 1, quantity := 1 },
        { id := 2, itemCode := ['1', '.', '2'], totalCost := 100,
          cumulativeCost := 400, cumulativePercentage := 100,
          isParetoCritical := false, itemCount := 1, quantity := 1 } ] }

/-- C1 (amended): a NotFound failure and the zero-decoded-rows
InvalidArgument leave the project state untouched, and the project status
is unchanged on every failure; but the zero-surviving-items
InvalidArgument fires after the `DELETE`, so the previously stored line
items are already gone. -/
theorem c1_failure_no_partial_write (st : ProjState) (rows : List RawRow) :
    ((processSpreadsheet st rows).2 = .notFound →
      (processSpreadsheet st rows).1 = st) ∧
    ((processSpreadsheet st rows).2 = .invalidArg →
      (processSpreadsheet st rows).1.status = st.status ∧
      (rows = [] → (processSpreadsheet st rows).1 = st) ∧
      (rows ≠ [] → (processSpreadsheet st rows).1.stored = [])) := by
  rw [processSpreadsheet]
  by_cases h1 : st.present = false
  · simp [h1]
  · rw [if_neg h1]
    by_cases h2 : rows = []
    · simp [h2]
    · rw [if_neg h2]
      by_cases h3 : procAccepted rows = []
      · simp [h3, h2]
      · simp [h3]

/-- C1 counterexample: a project with one stored item, re-processed from a
spreadsheet whose single row is rejected (empty description), fails with
InvalidArgument yet its previously stored items are deleted. -/
theorem c1_counterexample :
    (processSpreadsheet exStateOld [exBadRow]).2 = .invalidArg ∧
    (processSpreadsheet exStateOld [exBadRow]).1.stored = [] ∧
    exStateOld.stored ≠ [] :=
  ⟨rfl, rfl, by simp [exStateOld]⟩

/-- C1 witness: the amended theorem applied to the concrete failing call. -/
theorem c1_failure_no_partial_write_witness :
    (processSpreadsheet exStateOld [exBadRow]).1.status = exStateOld.status :=
  ((c1_failure_no_partial_write exStateOld [exBadRow]).2 rfl).1

/-- C2 (amended): the `totalProjectCost` returned by Process is the sum of
`totalCost` over all accepted line items, not only the level-1 ones (the
level-1-only total is what `getAnalysisData` reports, not Process). -/
theorem c2_total_cost_all_items (st : ProjState) (rows : List RawRow)
    (resp : ProcessResponse)
    (h : respOf (processSpreadsheet st rows) = some resp) :
    resp.totalProjectCost =
      ((rows.filterMap parseRow004).map (fun x => x.totalCost)).sum := by
  obtain ⟨hresp, -⟩ := respOf_processSpreadsheet st rows resp h
  rw [hresp]
  exact procTotal_eq_sum rows

/-- C2 counterexample: accepted items `"1"` (300, level 1) and `"1.1"`
(100, level 2) make Process return 400, while the level-1-only sum is 300. -/
theorem c2_counterexample :
    (respOf (processSpreadsheet exState [exRow1, exRow11])).map
        (fun r => r.totalProjectCost) = some 400 ∧
    (((procAccepted [exRow1, exRow11]).filter
        (fun x => x.wbsLevel = 1)).map (fun x => x.totalCost)).sum = 300 ∧
    (400 : ℚ) ≠ 300 := by
  refine ⟨?_, ?_, by norm_num⟩
  · have h1 : respOf (processSpreadsheet exState [exRow1, exRow11]) =
        some (procResponse [exRow1, exRow11]) := rfl
    rw [h1, Option.map_some']
    norm_num [procResponse, procTotal, procSorted, procAccepted, parseRow004,
      trimCode, finalTotalCost, sortByCostDesc, insertByCost, exRow1, exRow11]
  · have h2 : procAccepted [exRow1, exRow11] =
        [{ itemCode := ['1'], description := ['a'], quantity := 0, unit := [],
           unitRate := 0, totalCost := 300, wbsLevel := 1,
           parentItemCode := none },
         { itemCode := ['1', '.', '1'], description := ['b'], quantity := 0,
           unit := [], unitRate := 0, totalCost := 100, wbsLevel := 2,
           parentItemCode := some ['1'] }] := rfl
    rw [h2]
    norm_num [List.filter]

/-- C2 witness: the amended theorem applied to the concrete run. -/
theorem c2_total_cost_all_items_witness :
    (procResponse [exRow1, exRow11]).totalProjectCost =
      (([exRow1, exRow11].filterMap parseRow004).map
        (fun x => x.totalCost)).sum :=
  c2_total_cost_all_items exState [exRow1, exRow11]
    (procResponse [exRow1, exRow11]) rfl

/-- C5 (amended): `src/backend/analysis/process.ts` drops a row exactly
when its resolved description is empty or its final total is not strictly
positive — an empty resolved item code does not reject the row there (it
is stored as `null`); the WBS-aware revision (`src/unnamed/part_004`)
additionally requires a non-empty trimmed item code, as the claim states. -/
theorem c5_row_rejection (row : RawRow) :
    (parseRowFlat row = none ↔
      (row.description = [] ∨ finalTotalCost row ≤ 0)) ∧
    (parseRow004 row = none ↔
      (trimCode row.itemCode = [] ∨ row.description = [] ∨
        finalTotalCost row ≤ 0)) := by
  constructor
  · rw [parseRowFlat]
    by_cases h : row.description ≠ [] ∧ 0 < finalTotalCost row
    · rw [if_pos h]
      simp only [reduceCtorEq, false_iff]
      push_neg
      exact ⟨h.1, h.2⟩
    · rw [if_neg h]
      simp only [true_iff]
      rcases not_and_or.mp h with hd | ht
      · exact Or.inl (not_not.mp hd)
      · exact Or.inr (not_lt.mp ht)
  · rw [parseRow004]
    by_cases h : trimCode row.itemCode ≠ [] ∧ row.description ≠ [] ∧
        0 < finalTotalCost row
    · rw [if_pos h]
      simp only [reduceCtorEq, false_iff]
      push_neg
      exact ⟨h.1, h.2.1, h.2.2⟩
    · rw [if_neg h]
      simp only [true_iff]
      rcases not_and_or.mp h with hc | h'
      · exact Or.inl (not_not.mp hc)
      · rcases not_and_or.mp h' with hd | ht
        · exact Or.inr (Or.inl (not_not.mp hd))
        · exact Or.inr (Or.inr (not_lt.mp ht))

/-- C5 counterexample: a row with empty resolved item code, non-empty
description and supplied total 5 is accepted by
`src/backend/analysis/process.ts`, so "drops iff item code empty or
description empty or total not positive" is false for that parser. -/
theorem c5_counterexample :
    ¬ ((parseRowFlat exNoCodeRow = none) ↔
      (exNoCodeRow.itemCode = [] ∨ exNoCodeRow.description = [] ∨
        finalTotalCost exNoCodeRow ≤ 0)) := by
  decide

/-- C8: the ranking step sorts by `totalCost` descending with a stable
tie-break — after ranking, the underlying items are pairwise descending
in cost and, for every cost value, the equal-cost items appear in exactly
their input order. -/
theorem c8_stable_sort_ranking (items : List PItem) :
    (((rankItems items).map (fun r => r.toPItem)).Pairwise
      (fun a b => b.totalCost ≤ a.totalCost)) ∧
    ∀ c : ℚ,
      ((rankItems items).map (fun r => r.toPItem)).filter
          (fun x => x.totalCost = c) =
        items.filter (fun x => x.totalCost = c) := by
  have hmap : (rankItems items).map (fun r => r.toPItem) =
      sortByCostDesc (fun x : PItem => x.totalCost) items :=
    rankSweep_map_toPItem _ 0 _
  rw [hmap]
  exact ⟨sortByCostDesc_sorted _ _, fun c => sortByCostDesc_filter_eq _ c _⟩

/-- C9 (amended): the code has no `total <= 0` guard — a negative-total
list is ranked with genuinely non-zero cumulative fields (see the
counterexample) — but a zero divisor is unreachable: every accepted item
and every filtered aggregation group has strictly positive cost, so both
ranking call sites always divide by a strictly positive total. -/
theorem c9_positive_total (st : ProjState) (rows : List RawRow)
    (resp : ProcessResponse) :
    (respOf (processSpreadsheet st rows) = some resp →
      0 < resp.totalProjectCost) ∧
    (∀ (present : Bool) (stored : List StoredItem) (level : Nat)
        (parent : List Char) (wresp : WBSResponse),
        getWBSData present stored level parent = .ok wresp →
        wresp.items ≠ [] → 0 < wresp.totalCost) := by
  constructor
  · intro h
    obtain ⟨hresp, hne⟩ := respOf_processSpreadsheet st rows resp h
    rw [hresp]
    exact procTotal_pos rows hne
  · intro present stored level parent wresp hok hne
    obtain ⟨filtered, hfne, htot, -, hpos⟩ :=
      getWBSData_ok_nonempty present stored level parent wresp hok hne
    rw [htot]
    exact sum_map_pos _ _ hfne hpos

/-- C9 counterexample: ranking the one-item list of cost −5 (summed total
−5 ≤ 0) yields `cumulativeCost = -5` and `cumulativePercentage = 100`, not
the all-zero fields the claim requires. -/
theorem c9_counterexample :
    (((sortByCostDesc (fun x : PItem => x.totalCost) [exNegItem]).map
        (fun x => x.totalCost)).sum ≤ 0) ∧
    (rankItems [exNegItem]).map (fun r => r.cumulativeCost) = [-5] ∧
    (rankItems [exNegItem]).map (fun r => r.cumulativePercentage) = [100] ∧
    ((-5 : ℚ) ≠ 0 ∧ (100 : ℚ) ≠ 0) := by
  norm_num [rankItems, rankSweep, sortByCostDesc, insertByCost, exNegItem]

/-- C9 witness: the amended theorem applied to the concrete successful run. -/
theorem c9_positive_total_witness :
    0 < (procResponse [exRow1, exRow11]).totalProjectCost :=
  (c9_positive_total exState [exRow1, exRow11]
    (procResponse [exRow1, exRow11])).1 rfl

theorem rankSweep_not_critical_cons (total : ℚ) (hT : 0 < total) (x : PItem)
    (xs : List PItem) (hpos : ∀ y ∈ xs, 0 < y.totalCost)
    (hx : 80 * total < 100 * (0 + x.totalCost)) :
    ∀ r ∈ rankSweep total 0 (x :: xs), r.isParetoCritical = false := by
  intro r hr
  have hstep : rankSweep total 0 (x :: xs) =
      ({ toPItem := x
         cumulativeCost := 0 + x.totalCost
         cumulativePercentage := (0 + x.totalCost) / total * 100
         isParetoCritical :=
           decide ((0 + x.totalCost) / total * 100 ≤ 80) } : RankedItem) ::
        rankSweep total (0 + x.totalCost) xs := rfl
  rw [hstep] at hr
  rcases List.mem_cons.mp hr with rfl | hr
  · simp only [decide_eq_false_iff_not]
    exact pct_not_le_80 total _ hT hx
  · exact rankSweep_not_critical total hT xs (0 + x.totalCost) hpos hx r hr

/-- C10: whenever the single highest-cost accepted item already carries
more than 80% of the returned total (for instance a single accepted row),
Process reports `paretoCriticalItems = 0` and every returned item —
the top-ranked one included — has `isParetoCritical = false`, because
criticality is `cumulativePercentage <= 80` and already the first item's
percentage exceeds 80. -/
theorem c10_no_critical_when_dominant (st : ProjState) (rows : List RawRow)
    (resp : ProcessResponse)
    (hok : respOf (processSpreadsheet st rows) = some resp)
    (hdom : ∃ m ∈ procAccepted rows,
      (∀ x ∈ procAccepted rows, x.totalCost ≤ m.totalCost) ∧
      80 * resp.totalProjectCost < 100 * m.totalCost) :
    resp.paretoCriticalItems = 0 ∧
    ∀ r ∈ resp.items, r.isParetoCritical = false := by
  obtain ⟨hresp, hne⟩ := respOf_processSpreadsheet st rows resp hok
  obtain ⟨m, hm, hmax, hbig⟩ := hdom
  subst hresp
  have hbig' : 80 * procTotal rows < 100 * m.totalCost := hbig
  have hT : 0 < procTotal rows := procTotal_pos rows hne
  have hperm := sortByCostDesc_perm (fun x : PItem => x.totalCost)
    (procAccepted rows)
  have hsne : procSorted rows ≠ [] := by
    intro h
    have h0 : List.Perm ([] : List PItem) (procAccepted rows) := h ▸ hperm
    exact hne (List.Perm.eq_nil h0.symm)
  obtain ⟨s0, stl, hs⟩ := List.exists_cons_of_ne_nil hsne
  have hposS : ∀ x ∈ procSorted rows, 0 < x.totalCost := by
    intro x hx
    exact procAccepted_pos rows x (hperm.subset hx)
  have hmS : m ∈ procSorted rows := hperm.mem_iff.mpr hm
  have hsorted : (procSorted rows).Pairwise
      (fun a b => b.totalCost ≤ a.totalCost) :=
    sortByCostDesc_sorted (fun x : PItem => x.totalCost) (procAccepted rows)
  rw [hs] at hsorted hmS
  have hhead : m.totalCost ≤ s0.totalCost := by
    rcases List.mem_cons.mp hmS with rfl | hmtl
    · exact le_refl _
    · exact (List.pairwise_cons.mp hsorted).1 m hmtl
  have hx0 : 80 * procTotal rows < 100 * (0 + s0.totalCost) := by
    rw [zero_add]
    linarith
  have hall : ∀ r ∈ procRanked rows, r.isParetoCritical = false := by
    have hrw : procRanked rows =
        rankSweep (procTotal rows) 0 (s0 :: stl) := by
      rw [procRanked, hs]
    rw [hrw]
    exact rankSweep_not_critical_cons (procTotal rows) hT s0 stl
      (fun y hy => hposS y (hs ▸ List.mem_cons_of_mem s0 hy)) hx0
  have hfil : (procRanked rows).filter (fun r => r.isParetoCritical) = [] :=
    List.filter_eq_nil_iff.mpr (fun r hr => by simp [hall r hr])
  constructor
  · show ((procRanked rows).filter (fun r => r.isParetoCritical)).length = 0
    rw [hfil]
    rfl
  · intro r hr
    have hmem : r ∈ procRanked rows :=
      (sortByCostDesc_perm (fun q : RankedItem => q.totalCost)
        (procRanked rows)).subset hr
    exact hall r hmem

/-- C10 witness: the theorem applied to a single accepted row of cost 5. -/
theorem c10_no_critical_when_dominant_witness :
    (procResponse [exRow5]).paretoCriticalItems = 0 ∧
    (procResponse [exRow5]).items.map (fun r => r.isParetoCritical) =
      [false] := by
  have hdom : ∃ m ∈ procAccepted [exRow5],
      (∀ x ∈ procAccepted [exRow5], x.totalCost ≤ m.totalCost) ∧
      80 * (procResponse [exRow5]).totalProjectCost < 100 * m.totalCost := by
    refine ⟨exP5, by decide, by decide, ?_⟩
    norm_num [procResponse, procTotal, procSorted, procAccepted, parseRow004,
      trimCode, finalTotalCost, sortByCostDesc, insertByCost, exRow5, exP5]
  refine ⟨(c10_no_critical_when_dominant exState [exRow5]
      (procResponse [exRow5]) rfl hdom).1, ?_⟩
  norm_num [procResponse, procRanked, procTotal, procSorted, procAccepted,
    parseRow004, trimCode, finalTotalCost, sortByCostDesc, insertByCost,
    rankSweep, exRow5]

theorem startsWithCode_length (p : List Char) :
    ∀ s : List Char, startsWithCode s p = true → p.length ≤ s.length := by
  induction p with
  | nil =>
    intro s _
    simp
  | cons d pd ih =>
    intro s h
    cases s with
    | nil => cases h
    | cons c cs =>
      rw [startsWithCode, Bool.and_eq_true] at h
      have := ih cs h.2
      simp only [List.length_cons]
      omega

theorem startsWithCode_ne_parent (s p : List Char)
    (h : startsWithCode s (p ++ ['.']) = true) : s ≠ p := by
  intro hEq
  subst hEq
  have := startsWithCode_length (s ++ ['.']) s h
  simp at this

/-- C3 (amended): for level 2 the selection is exactly the items whose
code extends `parent + "."` with one dot; for level 3 with two dots; but
every level other than 1 and 2 runs the level-3 branch, so the dot-count
bound is `min (level - 1) 2`, not `level - 1`: requests with
`level > 3` still select the two-dot (level-3) codes. -/
theorem c3_direct_children_selection (rows : List StoredItem) (level : Nat)
    (parent : List Char) (h2 : 2 ≤ level) :
    rows.filter (wbsSelPred level parent) =
      rows.filter (fun r =>
        startsWithCode r.itemCode (parent ++ ['.']) &&
        dotCount r.itemCode = min (level - 1) 2) := by
  apply List.filter_congr
  intro r _
  by_cases hl : level = 2
  · subst hl
    rw [wbsSelPred, if_pos rfl]
    cases hA : startsWithCode r.itemCode (parent ++ ['.'])
    · simp
    · have hne : r.itemCode ≠ parent := startsWithCode_ne_parent _ _ hA
      simp [hne]
  · rw [wbsSelPred, if_neg hl]
    have hmin : min (level - 1) 2 = 2 := min_eq_right (by omega)
    rw [hmin]
    cases hA : startsWithCode r.itemCode (parent ++ ['.'])
    · simp
    · have hne : r.itemCode ≠ parent := startsWithCode_ne_parent _ _ hA
      simp [hne]

/-- C3 counterexample: at level 4 under parent `"1"`, the two-dot item
`"1.1.1"` is selected although it does not have `level - 1 = 3` dots,
and the three-dot item `"1.1.1.1"` — a true level-4 direct descendant
pattern with exactly `level - 1` dots — is not selected. -/
theorem c3_counterexample :
    [exStored111, exStored1111].filter (wbsSelPred 4 ['1']) = [exStored111] ∧
    dotCount exStored111.itemCode ≠ 4 - 1 ∧
    startsWithCode exStored1111.itemCode (['1'] ++ ['.']) = true ∧
    dotCount exStored1111.itemCode = 4 - 1 := by
  decide

/-- C3 witness: the amended theorem applied at level 2 under `"1.1"`. -/
theorem c3_direct_children_selection_witness :
    [exStored111, exStored1111].filter (wbsSelPred 2 ['1', '.', '1']) =
      [exStored111, exStored1111].filter (fun r =>
        startsWithCode r.itemCode (['1', '.', '1'] ++ ['.']) &&
        dotCount r.itemCode = min (2 - 1) 2) :=
  c3_direct_children_selection [exStored111, exStored1111] 2 ['1', '.', '1']
    (by decide)

/-- C4: whenever the selected group list is non-empty, the response's
`totalCost` is the sum over exactly the returned rows' costs (the
request's own selected subset), and every returned row's
`cumulativePercentage` is its running prefix sum divided by that subset
total times 100 — the project grand total never enters. -/
theorem c4_subset_own_basis (present : Bool) (rows : List StoredItem)
    (level : Nat) (parent : List Char) (resp : WBSResponse)
    (hok : getWBSData present rows level parent = .ok resp)
    (hne : resp.items ≠ []) :
    resp.totalCost = (resp.items.map (fun w => w.totalCost)).sum ∧
    ∀ i : Nat, i < resp.items.length →
      resp.items[i]?.map (fun w => w.cumulativePercentage) =
        some ((((resp.items.take (i + 1)).map (fun w => w.totalCost)).sum) /
          resp.totalCost * 100) := by
  obtain ⟨filtered, hfne, htot, hitems, hpos⟩ :=
    getWBSData_ok_nonempty present rows level parent resp hok hne
  have hcost : resp.items.map (fun w => w.totalCost) =
      filtered.map (fun a => a.totalCost) := by
    rw [hitems, wbsSweep_map_totalCost]
  constructor
  · rw [hcost]
    exact htot
  · intro i hi
    have hlen : i < filtered.length := by
      rw [hitems, wbsSweep_length] at hi
      exact hi
    have hgs : filtered[i]? = some filtered[i] := List.getElem?_eq_getElem hlen
    have htake : (resp.items.take (i + 1)).map (fun w => w.totalCost) =
        (filtered.take (i + 1)).map (fun a => a.totalCost) := by
      rw [List.map_take, List.map_take, hcost]
    rw [hitems, wbsSweep_getElem_pct, hgs, Option.map_some']
    rw [← hitems, htake, htot]
    rw [zero_add]

set_option allowUnsafeReducibility true in
attribute [local semireducible] Rat.add Rat.mul Rat.sub Rat.inv in
/-- C4 witness: level 2 under `"1"` with children costing 300 and 100 and
a third branch costing 1000000 yields percentages 75 and 100 against the
subset total 400.  The rational operations are made semireducible locally
so that the kernel can evaluate the concrete run. -/
theorem c4_subset_own_basis_witness :
    getWBSData true exWbsRows 2 ['1'] = .ok exWbsResp ∧
    exWbsResp.items[1]?.map (fun w => w.cumulativePercentage) =
      some ((((exWbsResp.items.take 2).map (fun w => w.totalCost)).sum) /
        exWbsResp.totalCost * 100) ∧
    exWbsResp.items.map (fun w => w.cumulativePercentage) = [75, 100] := by
  have hok : getWBSData true exWbsRows 2 ['1'] = .ok exWbsResp := by decide
  refine ⟨hok, ?_, by decide⟩
  exact (c4_subset_own_basis true exWbsRows 2 ['1'] exWbsResp hok
    (by decide)).2 1 (by decide)

theorem sqlGroupBy_mem (key : StoredItem → List Char) (sel : List StoredItem)
    (a : AggRow) (ha : a ∈ sqlGroupBy key sel) :
    a.totalCost = ((sel.filter (fun r => key r = a.itemCode)).map
      (fun r => r.totalCost)).sum ∧
    a.quantity = ((sel.filter (fun r => key r = a.itemCode)).map
      (fun r => r.quantity)).sum ∧
    a.itemCount = (sel.filter (fun r => key r = a.itemCode)).length := by
  rw [sqlGroupBy] at ha
  rcases List.mem_map.mp ha with ⟨k, -, rfl⟩
  exact ⟨rfl, rfl, rfl⟩

/-- C6 (amended): every level-1 aggregated row is built from all persisted
items with a non-empty `itemCode` whose `CASE`-derived key (the code
itself when purely numeric, its first segment when it starts `digits.`,
the whole code otherwise) equals the row's code — `wbsLevel` is never
consulted, so items of deeper WBS levels contribute fully to the matching
group's summed `totalCost`, summed `quantity` and item count. -/
theorem c6_level1_groups_all_levels (rows : List StoredItem) (a : AggRow)
    (ha : a ∈ level1Rows rows) :
    a.totalCost = ((rows.filter (fun r =>
        r.itemCode ≠ [] && level1Key r.itemCode = a.itemCode)).map
      (fun r => r.totalCost)).sum ∧
    a.quantity = ((rows.filter (fun r =>
        r.itemCode ≠ [] && level1Key r.itemCode = a.itemCode)).map
      (fun r => r.quantity)).sum ∧
    a.itemCount = (rows.filter (fun r =>
        r.itemCode ≠ [] && level1Key r.itemCode = a.itemCode)).length := by
  have ha2 : a ∈ sqlGroupBy (fun r => level1Key r.itemCode)
      (rows.filter (fun r => r.itemCode ≠ [])) :=
    List.mem_of_mem_filter
      ((sortByCostDesc_perm (fun g : AggRow => g.totalCost) _).subset ha)
  obtain ⟨h1, h2, h3⟩ := sqlGroupBy_mem _ _ a ha2
  rw [List.filter_filter] at h1 h2 h3
  have hcomm : rows.filter (fun r =>
      decide (level1Key r.itemCode = a.itemCode) && decide (r.itemCode ≠ [])) =
      rows.filter (fun r =>
        decide (r.itemCode ≠ []) && decide (level1Key r.itemCode = a.itemCode)) :=
    List.filter_congr (fun r _ => Bool.and_comm _ _)
  rw [hcomm] at h1 h2 h3
  exact ⟨h1, h2, h3⟩

set_option allowUnsafeReducibility true in
attribute [local semireducible] Rat.add Rat.mul Rat.sub Rat.inv in
/-- C6 counterexample: with stored items `"1"` (level 1, cost 100,
quantity 2) and `"1.2"` (level 2, cost 50, quantity 3), the level-1
aggregation returns one row for key `"1"` with cost 150, count 2 and
quantity 5 — the level-2 item contributes — whereas the wbsLevel-1 items
alone sum to 100. -/
theorem c6_counterexample :
    (level1Rows [exLvl1, exLvl2]).map
        (fun a => (a.itemCode, a.totalCost, a.itemCount, a.quantity)) =
      [(['1'], 150, 2, 5)] ∧
    (([exLvl1, exLvl2].filter (fun r => r.wbsLevel = 1)).map
        (fun r => r.totalCost)).sum = 100 ∧
    exLvl2.wbsLevel = 2 ∧ (150 : ℚ) ≠ 100 := by
  decide

set_option allowUnsafeReducibility true in
attribute [local semireducible] Rat.add Rat.mul Rat.sub Rat.inv in
/-- C6 witness: the amended theorem applied to the concrete aggregation. -/
theorem c6_level1_groups_all_levels_witness :
    exAgg6.totalCost = (([exLvl1, exLvl2].filter (fun r =>
        r.itemCode ≠ [] && level1Key r.itemCode = exAgg6.itemCode)).map
      (fun r => r.totalCost)).sum :=
  (c6_level1_groups_all_levels [exLvl1, exLvl2] exAgg6 (by decide)).1
